import Mathlib

/-!
Verification development for the rss-nodeseek repository.

The repository contains two successive iterations of the same RSS
keyword-monitoring daemon: `rss_main.py` (single-tenant) and `index.py`
(multi-tenant).  The definitions below are shallow embeddings of the
rule-matching engine, the identity resolver, the dedup ledger and its
eviction, the scheduler's failure counters, and the command processor's
mutation logic of both variants.  Strings are modelled as `List Char`
(`String.toList` images); Python regular-expression primitives that the
code uses (`<[^>]+>` stripping, `\s+` collapsing, the post-id patterns,
`\b...\b` full-word search) are implemented directly over `List Char`.
The user-selectable regex matching mode (`regex_match = true`), which
delegates arbitrary patterns to Python's `re` engine, is not modelled;
the embedded `Mode` covers the two remaining, mutually exclusive modes.
-/

/-- Characters treated as whitespace by the code's `.strip()` and `\s`
uses: ASCII whitespace plus no-break space (U+00A0) and ideographic
space (U+3000), the two the source names explicitly. -/
def isPySpace (c : Char) : Bool :=
  c.toNat = 32 || c.toNat = 9 || c.toNat = 10 || c.toNat = 13 ||
  c.toNat = 11 || c.toNat = 12 || c.toNat = 160 || c.toNat = 12288

/-- ASCII decimal digit, the class `\d` matches on the links the code
handles (and the class `str.isdigit` accepts for command arguments). -/
def isDigitCh (c : Char) : Bool :=
  48 ≤ c.toNat && c.toNat ≤ 57

/-- The character class kept by `re.sub(r'[^\w一-鿿]', '', ...)`:
word characters (ASCII letters, digits, underscore) or CJK ideographs.
Python's Unicode `\w` is wider; it agrees with this class on all inputs
used in the theorems below. -/
def isWordChar (c : Char) : Bool :=
  (48 ≤ c.toNat && c.toNat ≤ 57) || (65 ≤ c.toNat && c.toNat ≤ 90) ||
  (97 ≤ c.toNat && c.toNat ≤ 122) || c.toNat = 95 ||
  (19968 ≤ c.toNat && c.toNat ≤ 40959)

/-- ASCII uppercase letter. -/
def isUpperCh (c : Char) : Bool :=
  65 ≤ c.toNat && c.toNat ≤ 90

/-- ASCII lowering, as performed by `.lower()` on the ASCII range
(Python's `str.lower` is Unicode but agrees with this on ASCII, and
leaves the CJK ideographs the code keeps unchanged). -/
def lowerChar (c : Char) : Char :=
  if h : 65 ≤ c.toNat ∧ c.toNat ≤ 90 then
    Char.ofNatAux (c.toNat + 32) (Or.inl (by omega))
  else c

/-- `.lower()` over a whole string. -/
def pyLower (l : List Char) : List Char := l.map lowerChar

/-- `.strip()`: drop leading and trailing whitespace. -/
def pyStrip (l : List Char) : List Char :=
  ((l.dropWhile isPySpace).reverse.dropWhile isPySpace).reverse

/-- `re.sub(r'\s+', ' ', s)`: replace each maximal whitespace run by a
single space (a whitespace character is dropped when the next character
still belongs to the same run, and becomes the run's single space when
it does not). -/
def collapseWs : List Char → List Char
  | [] => []
  | [c] => if isPySpace c then [' '] else [c]
  | c :: d :: t =>
    if isPySpace c then
      if isPySpace d then collapseWs (d :: t) else ' ' :: collapseWs (d :: t)
    else c :: collapseWs (d :: t)

/-- `re.sub(r'[\s　 ]+', '', s)`: delete every whitespace
character. -/
def stripAllWs (l : List Char) : List Char := l.filter (fun c => !isPySpace c)

/-- `re.sub(r'[^\w一-鿿]', '', s)`: keep only word characters and
CJK ideographs. -/
def keepWordChars (l : List Char) : List Char := l.filter isWordChar

/-- Does `s` start with `pat`? -/
def listStartsWith : List Char → List Char → Bool
  | _, [] => true
  | [], _ :: _ => false
  | c :: s, p :: ps => c = p && listStartsWith s ps

/-- Python's substring containment `pat in s`. -/
def containsSub : List Char → List Char → Bool
  | [], pat => listStartsWith [] pat
  | c :: t, pat => listStartsWith (c :: t) pat || containsSub t pat

/-- `re.sub(r'<[^>]+>', '', s)`: remove HTML-tag-shaped spans.  At a `<`
the regex requires at least one non-`>` character before the closing
`>`; when no match starts at a position the scan moves one character
right, exactly as `re.sub` does. -/
def tagSpan (rest : List Char) : Option (List Char) :=
  match rest.dropWhile (fun d => d ≠ '>') with
  | '>' :: after => if rest.takeWhile (fun d => d ≠ '>') = [] then none else some after
  | _ => none

theorem tagSpan_length {rest after : List Char} (h : tagSpan rest = some after) :
    after.length ≤ rest.length := by
  have hlen : (rest.dropWhile (fun d => d ≠ '>')).length ≤ rest.length :=
    (List.dropWhile_sublist _).length_le
  unfold tagSpan at h
  split at h
  · split at h
    · exact absurd h (by simp)
    · rename_i heq _
      cases h
      rw [heq] at hlen
      simp only [List.length_cons] at hlen
      omega
  · exact absurd h (by simp)

/-- Fuel-indexed scan for `stripHtml`; the fuel is an upper bound on
the remaining input length, so the base case is never reached from
`stripHtml` itself. -/
def stripHtmlFuel : Nat → List Char → List Char
  | 0, s => s
  | _ + 1, [] => []
  | f + 1, c :: rest =>
    if c = '<' then
      match tagSpan rest with
      | some after => stripHtmlFuel f after
      | none => '<' :: stripHtmlFuel f rest
    else c :: stripHtmlFuel f rest

def stripHtml (s : List Char) : List Char := stripHtmlFuel s.length s

/-- The two embedded matching modes: plain substring containment
(`full_word_match = regex_match = false`) and full-word matching
(`full_word_match = true`). -/
inductive Mode where
  | plain : Mode
  | fullWord : Mode
deriving DecidableEq

/-- Is the character at index `i` of `s` a word character?
(out-of-range counts as non-word, as at the ends of a regex subject). -/
def wordAt (s : List Char) (i : Nat) : Bool :=
  match (s.drop i).head? with
  | some c => isWordChar c
  | none => false

/-- Does the regex word boundary `\b` hold at position `i` of `s`? -/
def boundaryAt (s : List Char) (i : Nat) : Bool :=
  (if i = 0 then false else wordAt s (i - 1)) != wordAt s i

/-- `re.search(rf"\b{re.escape(pat)}\b", s) is not None`: some position
carries a word boundary, an occurrence of the (escaped, hence literal)
pattern, and a word boundary after it. -/
def fullWordMatch (s pat : List Char) : Bool :=
  (List.range (s.length + 1)).any fun i =>
    boundaryAt s i && listStartsWith (s.drop i) pat && boundaryAt s (i + pat.length)

/-- The `check_match` helper of `rss_main.check_rss_feed` (lines
520-533), restricted to the two embedded modes.  The pattern argument
arrives already stripped and lowered, as at every call site. -/
def checkMatch : Mode → List Char → List Char → Bool
  | .plain, text, pat => containsSub text pat
  | .fullWord, text, pat => fullWordMatch text pat

theorem listStartsWith_nil (s : List Char) : listStartsWith s [] = true := by
  cases s <;> rfl

theorem containsSub_nil (s : List Char) : containsSub s [] = true := by
  cases s <;> simp [containsSub, listStartsWith_nil]

theorem fullWordMatch_empty_of_any {s pat : List Char}
    (h : fullWordMatch s pat = true) : fullWordMatch s [] = true := by
  rcases List.any_eq_true.mp h with ⟨i, hi, hcond⟩
  apply List.any_eq_true.mpr
  refine ⟨i, hi, ?_⟩
  simp only [Bool.and_eq_true] at hcond
  simp [listStartsWith_nil, hcond.1.1]

/-- A keyword rule, the migrated shape of one element of the `keywords`
list: a trigger `word`, an `incl` list (JSON field `include`: at least
one must also match when non-empty) and an `exclude` veto list. -/
structure Rule where
  word : List Char
  incl : List (List Char)
  exclude : List (List Char)
deriving DecidableEq

/-- Evaluation of a single rule in `rss_main.check_rss_feed` (lines
548-581): the stripped `word` must be non-empty and match; any
non-blank `exclude` term matching vetoes; when the non-blank part of
`incl` is non-empty at least one of its terms must match. -/
def evaluateRule (m : Mode) (text : List Char) (r : Rule) : Bool :=
  let w := pyStrip r.word
  if w = [] then false
  else if !checkMatch m text (pyLower w) then false
  else if r.exclude.any (fun t => !(pyStrip t).isEmpty && checkMatch m text (pyLower (pyStrip t))) then false
  else
    let vinc := r.incl.filter (fun t => !(pyStrip t).isEmpty)
    if !vinc.isEmpty && !vinc.any (fun t => checkMatch m text (pyLower (pyStrip t))) then false
    else true

/-- The global-exclusion test of `rss_main.check_rss_feed` (lines
442, 535-542): the list is pre-filtered to non-blank terms, each
stripped and lowered, and any match suppresses the entry. -/
def globalHit (m : Mode) (gex : List (List Char)) (text : List Char) : Bool :=
  gex.any (fun k => !(pyStrip k).isEmpty && checkMatch m text (pyLower (pyStrip k)))

/-- The `check_match` helper of `index.py` (lines 592-602): an empty
pattern never matches; otherwise substring or full-word search.
Patterns arrive lowered but (unlike `rss_main`) not stripped. -/
def idxCheckMatch (m : Mode) (text pat : List Char) : Bool :=
  if pat.isEmpty then false
  else
    match m with
    | .plain => containsSub text pat
    | .fullWord => fullWordMatch text pat

/-- Evaluation of a single rule in `index.check_rss_feed` (lines
546-565).  Only the base word uses the user's full-word setting;
exclude and include terms are always checked with `full_word=False`
(plain substring), exactly as the call sites pass it. -/
def idxEvaluateRule (wordMode : Mode) (text : List Char) (r : Rule) : Bool :=
  if !idxCheckMatch wordMode text (pyLower r.word) then false
  else if r.exclude.any (fun t => idxCheckMatch .plain text (pyLower t)) then false
  else if !r.incl.isEmpty && !r.incl.any (fun t => idxCheckMatch .plain text (pyLower t)) then false
  else true

/-- Leftmost occurrence test for one path pattern of the identity
resolver: does `<literal pat><digits>` match at the start of `s`?
Returns the (maximal) captured digit run of `(\d+)`. -/
def matchPrefAt (pat s : List Char) : Option (List Char) :=
  if listStartsWith s pat then
    let ds := (s.drop pat.length).takeWhile isDigitCh
    if ds.isEmpty then none else some ds
  else none

/-- `re.search` for `<literal pat>(\d+)`: try each start position left
to right, returning the first capture. -/
def searchPrefDigits (pat : List Char) : List Char → Option (List Char)
  | [] => none
  | c :: t =>
    match matchPrefAt pat (c :: t) with
    | some d => some d
    | none => searchPrefDigits pat t

/-- `re.search(r'-(\d+)$', s)`: the leftmost `-` that is followed only
by digits (at least one) up to the end of the string. -/
def searchDashEnd : List Char → Option (List Char)
  | [] => none
  | c :: t =>
    if c = '-' && !t.isEmpty && t.all isDigitCh then some t
    else searchDashEnd t

/-- `re.search(r'(\d+)', s)`: the first maximal digit run of `s` (used
on the guid as a fallback). -/
def searchDigits : List Char → Option (List Char)
  | [] => none
  | c :: t => if isDigitCh c then some (c :: t.takeWhile isDigitCh) else searchDigits t

/-- The ordered post-id pattern list of `rss_main.check_rss_feed`
(lines 485-491): `/post-(\d+)`, `/post/(\d+)`, `/topic/(\d+)`,
`/thread/(\d+)`, `-(\d+)$`, first match in listed order wins. -/
def extractPostId (link : List Char) : Option (List Char) :=
  match searchPrefDigits (String.toList "/post-") link with
  | some d => some d
  | none =>
    match searchPrefDigits (String.toList "/post/") link with
    | some d => some d
    | none =>
      match searchPrefDigits (String.toList "/topic/") link with
      | some d => some d
      | none =>
        match searchPrefDigits (String.toList "/thread/") link with
        | some d => some d
        | none => searchDashEnd link

/-- Deterministic stand-in for the truncated `hashlib.md5` hex digest
of the link (line 508).  The digest internals are an external library
primitive; no claim depends on the digest's value, only on it being a
deterministic pure function of the link. -/
def md5Stub (l : List Char) : List Char :=
  let h := l.foldl (fun a c => (a * 131 + c.toNat) % 4294967296) 0
  (List.range 8).map fun i =>
    let d := (h / 16 ^ i) % 16
    if d < 10 then Char.ofNatAux (48 + d) (Or.inl (by omega))
    else Char.ofNatAux (87 + d) (Or.inl (by omega))

/-- The field cleaning applied to title, summary and author in
`rss_main.check_rss_feed` (lines 461-462, 476-480): strip HTML tags,
strip surrounding whitespace, collapse internal whitespace runs. -/
def cleanText (s : List Char) : List Char := collapseWs (pyStrip (stripHtml s))

/-- The literal `'未知'` assigned when the feed entry has no author. -/
def zhUnknown : List Char := String.toList "未知"

/-- The author component of the dedup key (`rss_main.check_rss_feed`
lines 465-471, 477-482, 496-502): a missing author becomes `未知`; a
present author is cleaned; a cleaned author that is non-empty and not
the literal `未知` is whitespace-stripped, restricted to word/CJK
characters and lowered, otherwise the component is `unknown`. -/
def authorComponent (raw : List Char) : List Char :=
  let a := if raw = [] then zhUnknown else cleanText raw
  if a ≠ [] ∧ a ≠ zhUnknown then pyLower (keepWordChars (stripAllWs a))
  else String.toList "unknown"

/-- The full identity resolver of `rss_main.check_rss_feed` (lines
484-509): post id from the link patterns, else first digit run of the
guid, else the truncated link hash; composed with the author
component. -/
def resolveKey (link guid author : List Char) : List Char :=
  let pid :=
    match extractPostId link with
    | some d => some d
    | none => searchDigits guid
  match pid with
  | some d => d ++ '_' :: authorComponent author
  | none => md5Stub link ++ '_' :: authorComponent author

/-- A fetched feed entry as `rss_main.check_rss_feed` consumes it.
`raisesError` models an exception thrown while processing this entry
(caught by the per-entry handler at lines 608-610); `sendOk` models the
outcome of `send_telegram_message` for this entry's notification.  The
raise is modelled at the start of the entry body, before any mutation
of the ledger. -/
structure RssEntry where
  title : List Char
  summary : List Char
  link : List Char
  author : List Char
  guid : List Char
  raisesError : Bool
  sendOk : Bool
deriving DecidableEq

/-- The per-cycle matching configuration read from the config at the
start of `rss_main.check_rss_feed` (lines 437-445). -/
structure MatchConfig where
  matchSummary : Bool
  mode : Mode
  globalExclude : List (List Char)
  rules : List Rule

/-- The combined lower-cased match text of one entry (lines 451-462,
476-477, 514-517): cleaned title, plus a space and the cleaned summary
when summary matching is on and the summary is non-empty. -/
def combinedText (cfg : MatchConfig) (e : RssEntry) : List Char :=
  let title := cleanText e.title
  let summary := cleanText (if cfg.matchSummary then e.summary else [])
  pyLower title ++
    (if cfg.matchSummary ∧ summary ≠ [] then ' ' :: pyLower summary else [])

/-- The matched rule words of one entry (lines 535-581): empty when the
raw title or link is missing, when the entry raises, or when a global
exclusion hits; otherwise the stripped words of the rules that
evaluate to true, in rule-list order. -/
def entryMatched (cfg : MatchConfig) (e : RssEntry) : List (List Char) :=
  if e.raisesError then []
  else if e.title = [] ∨ e.link = [] then []
  else
    let text := combinedText cfg e
    if globalHit cfg.mode cfg.globalExclude text then []
    else (cfg.rules.filter (evaluateRule cfg.mode text)).map (fun r => pyStrip r.word)

/-- Processing of one entry by `rss_main.check_rss_feed` (lines
448-610), tracked on the set of recorded dedup keys (`notified_entries`
keys; the stored record values never influence control flow).  An
exception is caught and the entry skipped; a missing title or link
skips; an already-seen key skips; a global exclusion or an empty match
set records nothing; a match inserts the key, sends, and deletes the
key again when the send fails — so the key is retained exactly when
the send succeeded. -/
def processEntry (cfg : MatchConfig) (notified : List (List Char)) (e : RssEntry) :
    List (List Char) :=
  if e.raisesError then notified
  else if e.title = [] ∨ e.link = [] then notified
  else
    let key := resolveKey e.link e.guid e.author
    if key ∈ notified then notified
    else
      let text := combinedText cfg e
      if globalHit cfg.mode cfg.globalExclude text then notified
      else
        let matched := (cfg.rules.filter (evaluateRule cfg.mode text)).map (fun r => pyStrip r.word)
        if matched = [] then notified
        else if e.sendOk then notified ++ [key] else notified

/-- One pass over the fetched batch (the `for entry in feed.entries`
loop of `rss_main.check_rss_feed`). -/
def rssBatch (cfg : MatchConfig) (es : List RssEntry) (notified : List (List Char)) :
    List (List Char) :=
  es.foldl (processEntry cfg) notified

/-- A feed entry as `index.check_rss_feed` consumes it.  `entryId`
models `entry.id` (empty = absent); `raisesError` models an exception
thrown while processing this entry — in this variant there is no
per-entry handler, the whole loop sits in one `try` (lines 479-590).
`sendOk` models the delivery outcome of this entry's notifications. -/
structure IdxEntry where
  entryId : List Char
  link : List Char
  title : List Char
  summary : List Char
  author : List Char
  raisesError : Bool
  sendOk : Bool
deriving DecidableEq

/-- The dedup key of `index.check_rss_feed` (lines 497-498):
`entry.id` when present, else the md5 hex of the link (stand-in
digest, see `md5Stub`). -/
def idxKey (e : IdxEntry) : List Char :=
  if e.entryId = [] then md5Stub e.link else e.entryId

/-- One user's configuration as `index.check_rss_feed` reads it. -/
structure IdxUser where
  keywords : List Rule
  globalExclude : List (List Char)
  matchSummary : Bool
  mode : Mode

/-- `index.clean_html` (line 509): strip tags, then surrounding
whitespace (no run collapsing in this variant). -/
def idxCleanHtml (t : List Char) : List Char := pyStrip (stripHtml t)

/-- The per-user match text (lines 535-536): lowered title, plus a
space and the lowered summary whenever summary matching is on. -/
def idxText (u : IdxUser) (title summary : List Char) : List Char :=
  pyLower title ++ (if u.matchSummary then ' ' :: pyLower summary else [])

/-- The matched rule words for one user on one entry (lines 527-565). -/
def idxUserMatched (u : IdxUser) (title summary : List Char) : List (List Char) :=
  if u.keywords = [] then []
  else
    let text := idxText u title summary
    if u.globalExclude.any (fun b => idxCheckMatch .plain text (pyLower b)) then []
    else (u.keywords.filter (idxEvaluateRule u.mode text)).map (fun r => r.word)

/-- The per-user matched lists of one entry (notification sends, lines
567-577, are attempted for each non-empty list; their outcomes never
touch `processed_ids`). -/
def idxEntryNotifs (users : List IdxUser) (e : IdxEntry) : List (List (List Char)) :=
  users.map (fun u => idxUserMatched u (idxCleanHtml e.title) (idxCleanHtml e.summary))

/-- Processing of one entry by `index.check_rss_feed`, tracked on
`processed_ids`: an already-seen key skips; otherwise, after the
per-user notification attempts, the key is appended unconditionally
(lines 501, 581-583) — regardless of matches or delivery outcomes. -/
def idxProcessEntry (p : List (List Char)) (e : IdxEntry) : List (List Char) :=
  if idxKey e ∈ p then p else p ++ [idxKey e]

/-- The entry loop of `index.check_rss_feed`: an exception aborts the
remaining entries (no per-entry handler).  Returns the in-memory id
list and whether the loop aborted. -/
def idxLoop : List IdxEntry → List (List Char) → List (List Char) × Bool
  | [], p => (p, false)
  | e :: rest, p =>
    if e.raisesError then (p, true)
    else idxLoop rest (idxProcessEntry p e)

/-- One full cycle of `index.check_rss_feed` as observed through the
persisted `processed_ids`: on an abort the `except` handler skips
`save_processed` (line 586) and `monitor_loop` reloads the config next
cycle, so the in-memory appends are discarded and the persisted ledger
stays as it was. -/
def idxCycle (es : List IdxEntry) (p : List (List Char)) : List (List Char) :=
  let r := idxLoop es p
  if r.2 then p else r.1

/-- The scheduler's failure-tracking state in `rss_main.monitor_loop`
(lines 628-694). -/
structure SchedState where
  consecutiveErrors : Nat
  errorStreak : Nat
  detectionCounter : Nat
deriving DecidableEq

/-- The outcome of one `check_rss_feed` call inside the loop. -/
inductive CycleOutcome where
  | success : CycleOutcome
  | failure : CycleOutcome
deriving DecidableEq

/-- `max_consecutive_errors` (line 633). -/
def maxConsecutiveErrors : Nat := 5

/-- `auto_error_restart_threshold` (line 639). -/
def autoErrorRestartThreshold : Nat := 15

/-- One pass of the failure-tracking overlay of `monitor_loop` (lines
654-688): returns the new state, the list of extra sleeps performed in
the error branch, and whether a self-restart was triggered.  A success
resets both counters and advances the detection counter (the
uptime/memory watchdog of lines 663-670 reads the wall clock and
resident memory and is outside this embedding); a failure increments
both counters, and when `consecutive_errors` reaches the threshold the
loop sleeps `max_interval * 2` once and resets `consecutive_errors`
only; `error_streak` reaching its threshold triggers the restart. -/
def schedStep (maxInterval : Nat) (st : SchedState) (oc : CycleOutcome) :
    SchedState × List Nat × Bool :=
  match oc with
  | .success =>
    ({ consecutiveErrors := 0, errorStreak := 0,
       detectionCounter := st.detectionCounter + 1 }, [], false)
  | .failure =>
    let ce := st.consecutiveErrors + 1
    let es := st.errorStreak + 1
    let sleeps := if maxConsecutiveErrors ≤ ce then [maxInterval * 2] else []
    let ce2 := if maxConsecutiveErrors ≤ ce then 0 else ce
    ({ consecutiveErrors := ce2, errorStreak := es,
       detectionCounter := st.detectionCounter }, sleeps,
     autoErrorRestartThreshold ≤ es)

/-- Stable descending insertion by timestamp: the element is placed
before the first strictly-older entry, so entries with equal
timestamps keep their original relative order — the behaviour of
Python's stable `sorted(..., key=time, reverse=True)`. -/
def insertDesc (x : List Char × Nat) : List (List Char × Nat) → List (List Char × Nat)
  | [] => [x]
  | y :: ys => if y.2 < x.2 then x :: y :: ys else y :: insertDesc x ys

/-- Stable sort by timestamp descending, as `sorted(items, key=time,
reverse=True)` in `rss_main.save_config` (lines 191-195). -/
def sortDesc (l : List (List Char × Nat)) : List (List Char × Nat) :=
  l.foldr insertDesc []

/-- The eviction of `rss_main.save_config` (lines 187-196): when the
cap is positive and the ledger holds more than `cap` entries, sort by
timestamp descending and keep the first `cap`; a cap of 0 means
unlimited — no eviction.  Timestamps are modelled as naturals ordered
as the stored `'time'` strings are by their lexicographic order. -/
def evictToCap (cap : Nat) (l : List (List Char × Nat)) : List (List Char × Nat) :=
  if 0 < cap ∧ cap < l.length then (sortDesc l).take cap else l

/-- System interval settings mutated by `setinterval`. -/
structure Intervals where
  check_min_interval : Nat
  check_max_interval : Nat
deriving DecidableEq

/-- Python `str.isdigit` on ASCII arguments: non-empty, all digits. -/
def pyIsDigitStr (l : List Char) : Bool := !l.isEmpty && l.all isDigitCh

/-- Decimal value of a digit string. -/
def digitsToNat (l : List Char) : Nat :=
  l.foldl (fun a c => a * 10 + (c.toNat - 48)) 0

/-- The `/setinterval` handler of `rss_main.telegram_command_listener`
(lines 944-959): exactly two digit tokens are required, both values
must be positive with max ≥ min, otherwise the command is rejected and
the settings left unchanged.  Returns the new settings and whether the
mutation was accepted. -/
def setIntervalCmd (s : Intervals) (args : List (List Char)) : Intervals × Bool :=
  match args with
  | [a, b] =>
    if pyIsDigitStr a && pyIsDigitStr b then
      let mn := digitsToNat a
      let mx := digitsToNat b
      if mn ≤ 0 ∨ mx ≤ 0 ∨ mx < mn then (s, false)
      else ({ check_min_interval := mn, check_max_interval := mx }, true)
    else (s, false)
  | _ => (s, false)

/-- The `/setinterval` handler of `index.telegram_command_listener`
(lines 413-425), after the admin check: exactly two digit tokens are
required, and any such pair is stored — there is no positivity or
ordering validation in this variant. -/
def idxSetIntervalCmd (s : Intervals) (args : List (List Char)) : Intervals × Bool :=
  match args with
  | [a, b] =>
    if pyIsDigitStr a && pyIsDigitStr b then
      ({ check_min_interval := digitsToNat a, check_max_interval := digitsToNat b }, true)
    else (s, false)
  | _ => (s, false)

/-- The user's default include/exclude template (`defaults` in the
user config of `index.py`). -/
structure Defaults where
  incl : List (List Char)
  exclude : List (List Char)

/-- Is the token one of the clean flags of `/add` (lines 239-242)? -/
def isCleanFlag (t : List Char) : Bool :=
  pyLower t = String.toList "clean" || pyLower t = String.toList "clean-i" ||
  pyLower t = String.toList "clean-e"

/-- The parsed `/add` argument tokens (lines 233-248): clean flags
(lower-cased), `+`-switches, `-`-switches, and keyword words, each in
first-seen order. -/
structure AddParse where
  flags : List (List Char)
  incs : List (List Char)
  excs : List (List Char)
  kws : List (List Char)

/-- Token partition of the `/add` handler of
`index.telegram_command_listener` (lines 239-248). -/
def parseAddTokens (tokens : List (List Char)) : AddParse :=
  tokens.foldl
    (fun acc t =>
      if isCleanFlag t then { acc with flags := acc.flags ++ [pyLower t] }
      else if t.head? = some '+' ∧ 1 < t.length then { acc with incs := acc.incs ++ [t.drop 1] }
      else if t.head? = some '-' ∧ 1 < t.length then { acc with excs := acc.excs ++ [t.drop 1] }
      else { acc with kws := acc.kws ++ [t] })
    ⟨[], [], [], []⟩

/-- Set-union merge preserving order and skipping duplicates (lines
276-285). -/
def mergeNoDup (base adds : List (List Char)) : List (List Char) :=
  adds.foldl (fun b x => if x ∈ b then b else b ++ [x]) base

/-- The mutation applied to one found-or-created rule by `/add` (lines
264-285): clean flags blank the lists; a newly created rule with no
clean flag is seeded from the defaults; then the switches are merged
without duplicates. -/
def updateRule (p : AddParse) (d : Defaults) (isNew : Bool) (r : Rule) : Rule :=
  let r1 :=
    if String.toList "clean" ∈ p.flags then { r with incl := [], exclude := [] }
    else
      let ra := if String.toList "clean-i" ∈ p.flags then { r with incl := [] } else r
      if String.toList "clean-e" ∈ p.flags then { ra with exclude := [] } else ra
  let r2 :=
    if isNew ∧ p.flags = [] then
      { r1 with incl := mergeNoDup r1.incl d.incl, exclude := mergeNoDup r1.exclude d.exclude }
    else r1
  { r2 with incl := mergeNoDup r2.incl p.incs, exclude := mergeNoDup r2.exclude p.excs }

/-- Find-or-create for one keyword word (lines 255-262): the first rule
whose `word` equals the token is mutated in place; absent that, a fresh
rule is created and appended. -/
def applyAddWord (p : AddParse) (d : Defaults) : List Rule → List Char → List Rule
  | [], w => [updateRule p d true ⟨w, [], []⟩]
  | r :: rs, w =>
    if r.word = w then updateRule p d false r :: rs
    else r :: applyAddWord p d rs w

/-- The whole `/add` mutation of `index.telegram_command_listener`
(lines 226-296): parse the tokens; with no recognized keyword the
command is rejected and the list unchanged; otherwise each keyword is
found-or-created and mutated in order. -/
def addCommand (d : Defaults) (ks : List Rule) (tokens : List (List Char)) : List Rule :=
  let p := parseAddTokens tokens
  if p.kws = [] then ks
  else p.kws.foldl (applyAddWord p d) ks

/-- Number of rules keyed to a given word. -/
def countWord (ks : List Rule) (w : List Char) : Nat :=
  (ks.filter (fun r => r.word = w)).length

theorem checkMatch_nil_plain (text : List Char) : checkMatch .plain text [] = true :=
  containsSub_nil text

/-- Claim C3 (confirmed): for every text and every rule whose include
list is non-empty, if no term of the include list matches the text
(each term matched the way the engine matches it: stripped and lowered
in `rss_main`, lowered in `index`), then the rule does not fire — even
when the rule's word matches the text and no exclude term matches.
Both variants are covered, over both embedded matching modes. -/
theorem include_gate_blocks_unmatched :
    (∀ (m : Mode) (text : List Char) (r : Rule),
        r.incl ≠ [] →
        (∀ t ∈ r.incl, checkMatch m text (pyLower (pyStrip t)) = false) →
        evaluateRule m text r = false)
    ∧ (∀ (m : Mode) (text : List Char) (r : Rule),
        r.incl ≠ [] →
        (∀ t ∈ r.incl, idxCheckMatch .plain text (pyLower t) = false) →
        idxEvaluateRule m text r = false) := by
  constructor
  · intro m text r hne hno
    by_cases hw : pyStrip r.word = []
    · simp [evaluateRule, hw]
    · by_cases hm : checkMatch m text (pyLower (pyStrip r.word)) = true
      · by_cases hx :
            r.exclude.any
              (fun t => !(pyStrip t).isEmpty && checkMatch m text (pyLower (pyStrip t))) = true
        · simp [evaluateRule, hw, hm, hx]
        · have hvne : (r.incl.filter (fun t => !(pyStrip t).isEmpty)) ≠ [] := by
            intro hv
            have hall := List.filter_eq_nil_iff.mp hv
            rcases List.exists_mem_of_ne_nil r.incl hne with ⟨t0, ht0⟩
            have hblank : pyStrip t0 = [] := by
              have := hall t0 ht0
              simpa using this
            have h0 := hno t0 ht0
            rw [hblank] at h0
            have hmt : checkMatch m text [] = false := by simpa [pyLower] using h0
            cases m with
            | plain => rw [checkMatch_nil_plain] at hmt; exact Bool.noConfusion hmt
            | fullWord =>
              have : fullWordMatch text [] = true :=
                fullWordMatch_empty_of_any (by simpa [checkMatch] using hm)
              rw [show checkMatch Mode.fullWord text [] = fullWordMatch text [] from rfl, this]
                at hmt
              exact Bool.noConfusion hmt
          have hany :
              (r.incl.filter (fun t => !(pyStrip t).isEmpty)).any
                (fun t => checkMatch m text (pyLower (pyStrip t))) = false := by
            apply List.any_eq_false.mpr
            intro t ht
            have := hno t (List.mem_of_mem_filter ht)
            simp [this]
          simp [evaluateRule, hw, hm, hx, hvne, hany]
      · simp [evaluateRule, hw, hm]
  · intro m text r hne hno
    by_cases hm : idxCheckMatch m text (pyLower r.word) = true
    · by_cases hx : r.exclude.any (fun t => idxCheckMatch .plain text (pyLower t)) = true
      · simp [idxEvaluateRule, hm, hx]
      · have hany : r.incl.any (fun t => idxCheckMatch .plain text (pyLower t)) = false := by
          apply List.any_eq_false.mpr
          intro t ht
          simp [hno t ht]
        simp [idxEvaluateRule, hm, hx, hany, hne]
    · simp [idxEvaluateRule, hm]

/-- Witness for C3: a concrete rule whose word matches but whose
include list is unmatched does not fire, in either variant. -/
theorem include_gate_blocks_example :
    evaluateRule .plain (String.toList "mk sale")
        ⟨String.toList "mk", [String.toList "buy"], []⟩ = false
    ∧ idxEvaluateRule .plain (String.toList "mk sale")
        ⟨String.toList "mk", [String.toList "buy"], []⟩ = false := by
  constructor
  · exact include_gate_blocks_unmatched.1 .plain (String.toList "mk sale")
      ⟨String.toList "mk", [String.toList "buy"], []⟩ (by decide)
      (by intro t ht; fin_cases ht; decide)
  · exact include_gate_blocks_unmatched.2 .plain (String.toList "mk sale")
      ⟨String.toList "mk", [String.toList "buy"], []⟩ (by decide)
      (by intro t ht; fin_cases ht; decide)

/-- Counterexample to claim C5 as stated: when `consecutive_errors`
reaches 5 on the very failure that brings `error_streak` to 15 (state
`(4, 14)` before the failure, `max_interval = 60`), the scheduler does
sleep 120 seconds once and reset `consecutive_errors`, but then
triggers the self-restart instead of resuming normal cycling. -/
theorem sched_restart_preempts_resume :
    schedStep 60 ⟨4, 14, 7⟩ .failure = (⟨0, 15, 7⟩, [120], true) := by decide

/-- Claim C5 (corrected): whenever `consecutive_errors` reaches 5 on a
failure — provided `error_streak` has not simultaneously reached its
restart threshold of 15 — the scheduler sleeps exactly
`max_interval * 2` once (120 seconds when `max_interval = 60`), resets
`consecutive_errors` to 0 while `error_streak` keeps its incremented
value, and resumes normal cycling (no restart). -/
theorem sched_error_threshold_long_sleep (maxInterval : Nat) (st : SchedState)
    (h4 : st.consecutiveErrors = 4) (hst : st.errorStreak + 1 < 15) :
    schedStep maxInterval st .failure =
      ({ consecutiveErrors := 0, errorStreak := st.errorStreak + 1,
         detectionCounter := st.detectionCounter }, [maxInterval * 2], false) := by
  simp only [schedStep, h4, maxConsecutiveErrors, autoErrorRestartThreshold]
  norm_num
  omega

/-- Witness for C5: the spec's own scenario, `max_interval = 60`,
sleeping exactly 120 seconds once. -/
theorem sched_error_threshold_long_sleep_example :
    schedStep 60 ⟨4, 3, 7⟩ .failure = (⟨0, 4, 7⟩, [120], false) :=
  sched_error_threshold_long_sleep 60 ⟨4, 3, 7⟩ rfl (by decide)

/-- Counterexample to claim C8 as stated: the `index.py` variant of the
`setinterval` command accepts the argument pair `(0, 5)` — two digit
tokens — and stores `check_min_interval = 0`, violating positivity
instead of rejecting the mutation. -/
theorem idx_setinterval_accepts_zero :
    (idxSetIntervalCmd ⟨30, 60⟩ [String.toList "0", String.toList "5"]).2 = true
    ∧ (idxSetIntervalCmd ⟨30, 60⟩ [String.toList "0", String.toList "5"]).1
        = ⟨0, 5⟩ := by decide

/-- Claim C8 (corrected): in the `rss_main.py` variant `setinterval`
mutates the stored intervals exactly when both arguments are digit
strings whose values are positive with max ≥ min, rejects every other
pair leaving the settings unchanged, and therefore preserves the
invariant `0 < check_min_interval ≤ check_max_interval`.  In the
`index.py` variant any two digit tokens are accepted and stored
without positivity or ordering validation. -/
theorem setinterval_validation_variants :
    (∀ (s : Intervals) (args : List (List Char)),
        0 < s.check_min_interval → s.check_min_interval ≤ s.check_max_interval →
        (0 < (setIntervalCmd s args).1.check_min_interval
          ∧ (setIntervalCmd s args).1.check_min_interval
              ≤ (setIntervalCmd s args).1.check_max_interval)
        ∧ ((setIntervalCmd s args).2 = false → (setIntervalCmd s args).1 = s))
    ∧ (∀ (s : Intervals) (a b : List Char),
        (setIntervalCmd s [a, b]).2 = true ↔
          (pyIsDigitStr a = true ∧ pyIsDigitStr b = true ∧
            0 < digitsToNat a ∧ digitsToNat a ≤ digitsToNat b))
    ∧ (∀ (s : Intervals) (a b : List Char),
        pyIsDigitStr a = true → pyIsDigitStr b = true →
        idxSetIntervalCmd s [a, b] = (⟨digitsToNat a, digitsToNat b⟩, true)) := by
  refine ⟨?_, ?_, ?_⟩
  · intro s args hpos hord
    match args with
    | [] => exact ⟨⟨hpos, hord⟩, fun _ => rfl⟩
    | [a] => exact ⟨⟨hpos, hord⟩, fun _ => rfl⟩
    | a :: b :: c :: t => exact ⟨⟨hpos, hord⟩, fun _ => rfl⟩
    | [a, b] =>
      simp only [setIntervalCmd]
      by_cases hd : (pyIsDigitStr a && pyIsDigitStr b) = true
      · simp only [hd, if_true]
        by_cases hv : digitsToNat a ≤ 0 ∨ digitsToNat b ≤ 0 ∨ digitsToNat b < digitsToNat a
        · simp only [hv, if_true]
          exact ⟨⟨hpos, hord⟩, fun _ => trivial⟩
        · simp only [hv, if_false]
          push_neg at hv
          exact ⟨⟨by omega, by omega⟩, fun hfalse => by simp at hfalse⟩
      · simp only [hd, if_false]
        exact ⟨⟨hpos, hord⟩, fun _ => rfl⟩
  · intro s a b
    simp only [setIntervalCmd]
    by_cases hd : (pyIsDigitStr a && pyIsDigitStr b) = true
    · simp only [hd, if_true]
      by_cases hv : digitsToNat a ≤ 0 ∨ digitsToNat b ≤ 0 ∨ digitsToNat b < digitsToNat a
      · simp only [hv, if_true]
        constructor
        · intro h; simp at h
        · intro ⟨_, _, h1, h2⟩; omega
      · simp only [hv, if_false]
        push_neg at hv
        simp only [Bool.and_eq_true] at hd
        exact ⟨fun _ => ⟨hd.1, hd.2, by omega, by omega⟩, fun _ => trivial⟩
    · simp only [hd, if_false]
      constructor
      · intro h; simp at h
      · intro ⟨h1, h2, _, _⟩; rw [h1, h2] at hd; simp at hd
  · intro s a b ha hb
    simp [idxSetIntervalCmd, ha, hb]

/-- Witness for C8: starting from valid settings `(30, 60)`, the
`rss_main` command rejects `(0, 5)` and leaves the invariant intact,
while the `index` command stores `(7, 9)` exactly as passed. -/
theorem setinterval_validation_example :
    (0 < (setIntervalCmd ⟨30, 60⟩ [String.toList "0", String.toList "5"]).1.check_min_interval
      ∧ (setIntervalCmd ⟨30, 60⟩ [String.toList "0", String.toList "5"]).1.check_min_interval
          ≤ (setIntervalCmd ⟨30, 60⟩
              [String.toList "0", String.toList "5"]).1.check_max_interval)
    ∧ idxSetIntervalCmd ⟨30, 60⟩ [String.toList "7", String.toList "9"]
        = (⟨digitsToNat (String.toList "7"), digitsToNat (String.toList "9")⟩, true) := by
  constructor
  · exact (setinterval_validation_variants.1 ⟨30, 60⟩
      [String.toList "0", String.toList "5"] (by decide) (by decide)).1
  · exact setinterval_validation_variants.2.2 ⟨30, 60⟩
      (String.toList "7") (String.toList "9") (by decide) (by decide)

theorem insertDesc_all_newer {x : List Char × Nat} :
    ∀ {m : List (List Char × Nat)}, (∀ y ∈ m, x.2 < y.2) → insertDesc x m = m ++ [x] := by
  intro m
  induction m with
  | nil => intro _; rfl
  | cons y ys ih =>
    intro hall
    have hy : x.2 < y.2 := hall y (List.mem_cons_self y ys)
    have : ¬ y.2 < x.2 := by omega
    simp only [insertDesc, this, if_false]
    rw [ih (fun z hz => hall z (List.mem_cons_of_mem y hz))]
    simp

theorem sortDesc_of_increasing :
    ∀ {l : List (List Char × Nat)}, l.Pairwise (fun a b => a.2 < b.2) →
      sortDesc l = l.reverse := by
  intro l
  induction l with
  | nil => intro _; rfl
  | cons a t ih =>
    intro hp
    have ht := List.Pairwise.of_cons hp
    have hhead : ∀ y ∈ t, a.2 < y.2 := fun y hy => List.rel_of_pairwise_cons hp hy
    have hmem : ∀ y ∈ sortDesc t, a.2 < y.2 := by
      intro y hy
      apply hhead
      have : sortDesc t = t.reverse := ih ht
      rw [this] at hy
      exact List.mem_reverse.mp hy
    show insertDesc a (sortDesc t) = (a :: t).reverse
    rw [insertDesc_all_newer hmem, ih ht]
    simp

theorem insertDesc_length (x : List Char × Nat) :
    ∀ (m : List (List Char × Nat)), (insertDesc x m).length = m.length + 1 := by
  intro m
  induction m with
  | nil => rfl
  | cons y ys ih =>
    simp only [insertDesc]
    by_cases h : y.2 < x.2
    · simp [h]
    · simp [h, ih]

theorem sortDesc_length (l : List (List Char × Nat)) :
    (sortDesc l).length = l.length := by
  induction l with
  | nil => rfl
  | cons a t ih =>
    show (insertDesc a (sortDesc t)).length = t.length + 1
    rw [insertDesc_length, ih]

/-- Claim C2 (confirmed): on a ledger whose entries carry strictly
increasing timestamps, eviction with a positive cap smaller than the
ledger size keeps exactly the `cap` most recent entries (the first
`cap` of the timestamp-descending order, which is the reverse of the
insertion order here); a cap of 0 performs no eviction; and with a
positive cap the ledger size is at most `cap` after every persist. -/
theorem evict_to_cap_keeps_most_recent (cap : Nat) (l : List (List Char × Nat))
    (hinc : l.Pairwise (fun a b => a.2 < b.2)) (hpos : 0 < cap) :
    (cap < l.length → evictToCap cap l = l.reverse.take cap)
    ∧ evictToCap 0 l = l
    ∧ (evictToCap cap l).length ≤ cap := by
  refine ⟨?_, ?_, ?_⟩
  · intro hlt
    simp only [evictToCap, and_iff_right hpos, hlt, if_true]
    rw [sortDesc_of_increasing hinc]
  · simp [evictToCap]
  · by_cases hlt : cap < l.length
    · simp only [evictToCap, hpos, hlt, and_self, if_true]
      rw [List.length_take]
      exact min_le_left _ _
    · have hcond : ¬ (0 < cap ∧ cap < l.length) := fun h => hlt h.2
      simp only [evictToCap, hcond, if_false]
      omega

/-- Witness for C2: three entries with increasing timestamps and cap 2
keep exactly the two most recent, and the result size is within the
cap. -/
theorem evict_to_cap_example :
    evictToCap 2 [(String.toList "a", 1), (String.toList "b", 2), (String.toList "c", 3)]
        = [(String.toList "a", 1), (String.toList "b", 2),
           (String.toList "c", 3)].reverse.take 2
    ∧ (evictToCap 2 [(String.toList "a", 1), (String.toList "b", 2),
        (String.toList "c", 3)]).length ≤ 2 := by
  have h := evict_to_cap_keeps_most_recent 2
    [(String.toList "a", 1), (String.toList "b", 2), (String.toList "c", 3)]
    (by decide) (by decide)
  exact ⟨h.1 (by decide), h.2.2⟩

/-- Is a token parsed as a plain keyword word by `/add` (neither a
clean flag nor a `+`/`-` switch)? -/
def isPlainWord (t : List Char) : Bool :=
  !isCleanFlag t && !(decide (t.head? = some '+') && decide (1 < t.length))
    && !(decide (t.head? = some '-') && decide (1 < t.length))

theorem parseAddTokens_single {w : List Char} (hw : isPlainWord w = true) :
    parseAddTokens [w] = ⟨[], [], [], [w]⟩ := by
  simp only [isPlainWord, Bool.and_eq_true, Bool.not_eq_true'] at hw
  obtain ⟨⟨hflag, hplus⟩, hminus⟩ := hw
  have hplus' : ¬ (w.head? = some '+' ∧ 1 < w.length) := by
    intro ⟨h1, h2⟩
    simp [h1, h2] at hplus
  have hminus' : ¬ (w.head? = some '-' ∧ 1 < w.length) := by
    intro ⟨h1, h2⟩
    simp [h1, h2] at hminus
  simp [parseAddTokens, hflag, hplus', hminus']

theorem updateRule_found_id {p : AddParse} {d : Defaults} (r : Rule)
    (hinc : p.incs = []) (hexc : p.excs = []) (hflags : p.flags = []) :
    updateRule p d false r = r := by
  simp [updateRule, hflags, hinc, hexc, mergeNoDup]

theorem updateRule_word (p : AddParse) (d : Defaults) (b : Bool) (r : Rule) :
    (updateRule p d b r).word = r.word := by
  simp only [updateRule]
  split_ifs <;> rfl

theorem countWord_cons_ne {r : Rule} {rs : List Rule} {w : List Char}
    (hr : ¬ r.word = w) : countWord (r :: rs) w = countWord rs w := by
  simp [countWord, List.filter_cons, hr]

theorem applyAddWord_found {p : AddParse} {d : Defaults}
    (hinc : p.incs = []) (hexc : p.excs = []) (hflags : p.flags = []) :
    ∀ (ks : List Rule) (w : List Char), 1 ≤ countWord ks w →
      applyAddWord p d ks w = ks := by
  intro ks
  induction ks with
  | nil => intro w h; simp [countWord] at h
  | cons r rs ih =>
    intro w h
    by_cases hr : r.word = w
    · simp [applyAddWord, hr, updateRule_found_id r hinc hexc hflags]
    · rw [countWord_cons_ne hr] at h
      simp [applyAddWord, hr, ih w h]

theorem applyAddWord_fresh {p : AddParse} {d : Defaults} :
    ∀ (ks : List Rule) (w : List Char), countWord ks w = 0 →
      applyAddWord p d ks w = ks ++ [updateRule p d true ⟨w, [], []⟩] := by
  intro ks
  induction ks with
  | nil => intro w _; rfl
  | cons r rs ih =>
    intro w h
    have hr : ¬ r.word = w := by
      intro heq
      simp [countWord, List.filter_cons, heq] at h
    rw [countWord_cons_ne hr] at h
    simp [applyAddWord, hr, ih w h]

theorem countWord_append_same (ks : List Rule) (w : List Char) (r : Rule)
    (hr : r.word = w) : countWord (ks ++ [r]) w = countWord ks w + 1 := by
  simp [countWord, List.filter_append, hr]

/-- Claim C9 (confirmed): the `/add` command is idempotent on rule
count.  Starting from a rule list holding at most one rule for the
word `w`, adding `w` (a plain keyword token) with no flags and no
switches yields exactly one rule for `w`, and a second identical add
leaves the whole list unchanged. -/
theorem add_idempotent_on_rule_count (d : Defaults) (ks : List Rule) (w : List Char)
    (hw : isPlainWord w = true) (hcount : countWord ks w ≤ 1) :
    countWord (addCommand d ks [w]) w = 1
    ∧ addCommand d (addCommand d ks [w]) [w] = addCommand d ks [w] := by
  have hparse := parseAddTokens_single hw
  have hkws : (parseAddTokens [w]).kws = [w] := by rw [hparse]
  have hinc : (parseAddTokens [w]).incs = [] := by rw [hparse]
  have hexc : (parseAddTokens [w]).excs = [] := by rw [hparse]
  have hflags : (parseAddTokens [w]).flags = [] := by rw [hparse]
  have hstep : ∀ l : List Rule,
      addCommand d l [w] = applyAddWord (parseAddTokens [w]) d l w := by
    intro l
    simp [addCommand, hkws]
  have hone : countWord (addCommand d ks [w]) w = 1 := by
    rw [hstep]
    rcases Nat.le_one_iff_eq_zero_or_eq_one.mp hcount with h0 | h1
    · rw [applyAddWord_fresh ks w h0,
        countWord_append_same ks w _ (updateRule_word _ _ _ _), h0]
    · rw [applyAddWord_found hinc hexc hflags ks w (by omega), h1]
  refine ⟨hone, ?_⟩
  rw [hstep (addCommand d ks [w])]
  exact applyAddWord_found hinc hexc hflags _ w (by omega)

/-- Witness for C9: adding the word `mk` twice to an empty rule list
(defaults seed an include term) produces a single rule and the second
add is a no-op. -/
theorem add_idempotent_example :
    countWord (addCommand ⟨[String.toList "sell"], []⟩ [] [String.toList "mk"])
        (String.toList "mk") = 1
    ∧ addCommand ⟨[String.toList "sell"], []⟩
        (addCommand ⟨[String.toList "sell"], []⟩ [] [String.toList "mk"])
        [String.toList "mk"]
      = addCommand ⟨[String.toList "sell"], []⟩ [] [String.toList "mk"] :=
  add_idempotent_on_rule_count ⟨[String.toList "sell"], []⟩ [] (String.toList "mk")
    (by decide) (by decide)

/-- Claim C10 (confirmed): in the `rss_main.py` variant a dedup key is
added to `notified_entries` only for entries that matched at least one
rule and whose notification was delivered successfully; an entry that
matches no rule leaves the ledger unchanged, so on every later cycle
in which it appears it is evaluated against the full rule set again
(its key is still absent, so the seen-key skip does not fire). -/
theorem rss_records_only_matched_delivered (cfg : MatchConfig)
    (st : List (List Char)) (e : RssEntry) (hr : e.raisesError = false) :
    (entryMatched cfg e = [] → processEntry cfg st e = st)
    ∧ (∀ k, k ∈ processEntry cfg st e →
        k ∈ st ∨ (k = resolveKey e.link e.guid e.author
          ∧ entryMatched cfg e ≠ [] ∧ e.sendOk = true)) := by
  by_cases hg : e.title = [] ∨ e.link = []
  · constructor
    · intro _
      simp [processEntry, hr, hg]
    · intro k hk
      simp [processEntry, hr, hg] at hk
      exact Or.inl hk
  · by_cases hk : resolveKey e.link e.guid e.author ∈ st
    · constructor
      · intro _
        simp [processEntry, hr, hg, hk]
      · intro k hkk
        simp [processEntry, hr, hg, hk] at hkk
        exact Or.inl hkk
    · by_cases hgl : globalHit cfg.mode cfg.globalExclude (combinedText cfg e) = true
      · constructor
        · intro _
          simp [processEntry, hr, hg, hk, hgl]
        · intro k hkk
          simp [processEntry, hr, hg, hk, hgl] at hkk
          exact Or.inl hkk
      · by_cases hm :
            ((cfg.rules.filter (evaluateRule cfg.mode (combinedText cfg e))).map
              (fun r => pyStrip r.word)) = []
        · constructor
          · intro _
            simp [processEntry, hr, hg, hk, hgl, hm]
          · intro k hkk
            simp [processEntry, hr, hg, hk, hgl, hm] at hkk
            exact Or.inl hkk
        · have hmt : entryMatched cfg e ≠ [] := by
            simp only [entryMatched, hr, Bool.false_eq_true, if_false, hg, hgl]
            exact hm
          constructor
          · intro habs
            exact absurd habs hmt
          · intro k hkk
            by_cases hs : e.sendOk = true
            · simp only [processEntry, hr, Bool.false_eq_true, if_false, hg, hk, hgl,
                hm, hs, if_true] at hkk
              rcases List.mem_append.mp hkk with hin | hnew
              · exact Or.inl hin
              · right
                refine ⟨by simpa using hnew, hmt, hs⟩
            · simp [processEntry, hr, hg, hk, hgl, hm, hs] at hkk
              exact Or.inl hkk

/-- Witness for C10: a concrete matching entry with successful
delivery is recorded under its resolved key, and the recording is
explained by the theorem's characterization. -/
theorem rss_records_example :
    (entryMatched ⟨true, .plain, [], [⟨String.toList "mk", [], []⟩]⟩
        ⟨String.toList "no hit", [], String.toList "https://x/post-7", [], [], false, true⟩ = []
      → processEntry ⟨true, .plain, [], [⟨String.toList "mk", [], []⟩]⟩ []
          ⟨String.toList "no hit", [], String.toList "https://x/post-7", [], [], false, true⟩
        = [])
    ∧ (∀ k, k ∈ processEntry ⟨true, .plain, [], [⟨String.toList "mk", [], []⟩]⟩ []
          ⟨String.toList "no hit", [], String.toList "https://x/post-7", [], [], false, true⟩ →
        k ∈ ([] : List (List Char))
        ∨ (k = resolveKey (String.toList "https://x/post-7") [] []
            ∧ entryMatched ⟨true, .plain, [], [⟨String.toList "mk", [], []⟩]⟩
                ⟨String.toList "no hit", [], String.toList "https://x/post-7", [], [],
                  false, true⟩ ≠ []
            ∧ true = true)) :=
  rss_records_only_matched_delivered ⟨true, .plain, [], [⟨String.toList "mk", [], []⟩]⟩ []
    ⟨String.toList "no hit", [], String.toList "https://x/post-7", [], [], false, true⟩ rfl

/-- Fixture for the C1 counterexample: one user monitoring `mk`. -/
def c1User : IdxUser := ⟨[⟨String.toList "mk", [], []⟩], [], true, .plain⟩

/-- Fixture for the C1 counterexample: an entry matching the user's
rule whose notification delivery fails. -/
def c1Entry : IdxEntry :=
  ⟨String.toList "p1", [], String.toList "mk sale", [], [], false, false⟩

/-- Counterexample to claim C1 as stated: in the `index.py` variant an
entry that matches a rule (`mk`) and whose delivery fails
(`sendOk = false`) still has its dedup key `p1` recorded in
`processed_ids` at the end of the cycle, so it is never re-evaluated. -/
theorem idx_failed_delivery_still_recorded :
    idxUserMatched c1User (idxCleanHtml c1Entry.title) (idxCleanHtml c1Entry.summary)
        = [String.toList "mk"]
    ∧ c1Entry.sendOk = false
    ∧ idxCycle [c1Entry] [] = [String.toList "p1"] := by decide

/-- Claim C1 (corrected): in the `rss_main.py` variant, for a fresh
matching entry the dedup key is retained exactly when the delivery
succeeded — a failed send removes the key (the entry is re-evaluated
next cycle) and a successful send records it before the next entry is
processed.  In the `index.py` variant the key is appended to
`processed_ids` unconditionally once the entry is reached, regardless
of matches or delivery outcome. -/
theorem delivery_gated_recording :
    (∀ (cfg : MatchConfig) (st : List (List Char)) (e : RssEntry),
        e.raisesError = false → ¬(e.title = [] ∨ e.link = []) →
        resolveKey e.link e.guid e.author ∉ st →
        globalHit cfg.mode cfg.globalExclude (combinedText cfg e) = false →
        ((cfg.rules.filter (evaluateRule cfg.mode (combinedText cfg e))).map
          (fun r => pyStrip r.word)) ≠ [] →
        processEntry cfg st e =
          if e.sendOk then st ++ [resolveKey e.link e.guid e.author] else st)
    ∧ (∀ (p : List (List Char)) (e : IdxEntry),
        idxKey e ∉ p → idxProcessEntry p e = p ++ [idxKey e]) := by
  constructor
  · intro cfg st e hr hg hk hgl hm
    by_cases hs : e.sendOk = true
    · simp [processEntry, hr, hg, hk, hgl, hm, hs]
    · simp [processEntry, hr, hg, hk, hgl, hm, hs]
  · intro p e hk
    simp [idxProcessEntry, hk]

/-- Witness for C1 (amended): a concrete fresh matching entry with a
failed send leaves the `rss_main` ledger unchanged, and a concrete
fresh entry is appended unconditionally in the `index` variant. -/
theorem delivery_gated_recording_example :
    processEntry ⟨true, .plain, [], [⟨String.toList "mk", [], []⟩]⟩ []
        ⟨String.toList "mk sale", [], String.toList "https://x/post-5", [], [], false, false⟩
      = (if false then
          [] ++ [resolveKey (String.toList "https://x/post-5") [] []] else [])
    ∧ idxProcessEntry [] c1Entry = [] ++ [idxKey c1Entry] := by
  constructor
  · exact delivery_gated_recording.1 ⟨true, .plain, [], [⟨String.toList "mk", [], []⟩]⟩ []
      ⟨String.toList "mk sale", [], String.toList "https://x/post-5", [], [], false, false⟩
      rfl (by decide) (by decide) (by decide) (by decide)
  · exact delivery_gated_recording.2 [] c1Entry (by decide)

/-- Fixture for the C7 counterexample: an entry whose processing
raises. -/
def c7Bad : IdxEntry := ⟨String.toList "k1", [], String.toList "x", [], [], true, true⟩

/-- Fixture for the C7 counterexample: a well-formed entry following
the raising one. -/
def c7Good : IdxEntry := ⟨String.toList "k2", [], String.toList "mk y", [], [], false, true⟩

/-- Counterexample to claim C7 as stated: in the `index.py` variant an
error raised while processing one entry aborts the whole batch — with
the failing entry first, the following well-formed entry is never
processed (its key is absent from the persisted ids), although
processed alone it would be recorded. -/
theorem idx_entry_error_aborts_batch :
    idxCycle [c7Bad, c7Good] [] = []
    ∧ idxCycle [c7Good] [] = [String.toList "k2"] := by decide

/-- Claim C7 (corrected): in the `rss_main.py` variant a per-entry
error is caught by the per-entry handler, the failing entry is a
no-op, and every remaining entry of the batch is still processed (the
batch result is as if the failing entry were absent).  In the
`index.py` variant, whose exception handler wraps the whole loop, an
error raised on one entry aborts the processing of all remaining
entries and the cycle persists nothing. -/
theorem per_entry_error_isolation_variants :
    (∀ (cfg : MatchConfig) (xs ys : List RssEntry) (bad : RssEntry)
        (st : List (List Char)), bad.raisesError = true →
        rssBatch cfg (xs ++ bad :: ys) st = rssBatch cfg ys (rssBatch cfg xs st))
    ∧ (∀ (e : IdxEntry) (rest : List IdxEntry) (p : List (List Char)),
        e.raisesError = true → idxCycle (e :: rest) p = p) := by
  constructor
  · intro cfg xs ys bad st hbad
    simp only [rssBatch, List.foldl_append, List.foldl_cons]
    have hskip : processEntry cfg (List.foldl (processEntry cfg) st xs) bad
        = List.foldl (processEntry cfg) st xs := by
      simp [processEntry, hbad]
    rw [hskip]
  · intro e rest p hbad
    simp [idxCycle, idxLoop, hbad]

/-- Witness for C7: with a raising entry between two well-formed ones
the `rss_main` batch equals the batch over the others alone, and an
`index` cycle starting with a raising entry persists nothing. -/
theorem per_entry_error_isolation_example :
    rssBatch ⟨true, .plain, [], [⟨String.toList "mk", [], []⟩]⟩
        ([⟨String.toList "mk a", [], String.toList "https://x/post-1", [], [], false, true⟩]
          ++ ⟨String.toList "boom", [], String.toList "https://x/post-2", [], [], true, true⟩
          :: [⟨String.toList "mk c", [], String.toList "https://x/post-3", [], [], false, true⟩])
        []
      = rssBatch ⟨true, .plain, [], [⟨String.toList "mk", [], []⟩]⟩
          [⟨String.toList "mk c", [], String.toList "https://x/post-3", [], [], false, true⟩]
          (rssBatch ⟨true, .plain, [], [⟨String.toList "mk", [], []⟩]⟩
            [⟨String.toList "mk a", [], String.toList "https://x/post-1", [], [], false, true⟩]
            [])
    ∧ idxCycle (c7Bad :: [c7Good]) [] = [] := by
  constructor
  · exact per_entry_error_isolation_variants.1
      ⟨true, .plain, [], [⟨String.toList "mk", [], []⟩]⟩
      [⟨String.toList "mk a", [], String.toList "https://x/post-1", [], [], false, true⟩]
      [⟨String.toList "mk c", [], String.toList "https://x/post-3", [], [], false, true⟩]
      ⟨String.toList "boom", [], String.toList "https://x/post-2", [], [], true, true⟩
      [] rfl
  · exact per_entry_error_isolation_variants.2 c7Bad [c7Good] [] rfl

theorem listStartsWith_append_self : ∀ (p x : List Char), listStartsWith (p ++ x) p = true := by
  intro p
  induction p with
  | nil => intro x; exact listStartsWith_nil _
  | cons c cs ih =>
    intro x
    simp [listStartsWith, ih]

theorem searchPrefDigits_append (pat : List Char) :
    ∀ (pre tail : List Char),
      (∀ i, i < pre.length → matchPrefAt pat ((pre ++ tail).drop i) = none) →
      searchPrefDigits pat (pre ++ tail) = searchPrefDigits pat tail := by
  intro pre
  induction pre with
  | nil => intro tail _; rfl
  | cons c cs ih =>
    intro tail hpre
    have h0 : matchPrefAt pat (c :: (cs ++ tail)) = none := by
      have := hpre 0 (by simp)
      simpa using this
    show searchPrefDigits pat (c :: (cs ++ tail)) = searchPrefDigits pat tail
    rw [searchPrefDigits, h0]
    exact ih tail fun i hi => by
      have := hpre (i + 1) (by simp; omega)
      simpa [List.drop_succ_cons] using this

theorem matchPrefAt_post123 (rest : List Char)
    (hrest : ∀ c, rest.head? = some c → isDigitCh c = false) :
    matchPrefAt (String.toList "/post-") (String.toList "/post-123" ++ rest)
      = some (String.toList "123") := by
  have h0 : String.toList "/post-123" = String.toList "/post-" ++ String.toList "123" := rfl
  rw [h0, List.append_assoc]
  have hsw : listStartsWith (String.toList "/post-" ++ (String.toList "123" ++ rest))
      (String.toList "/post-") = true := listStartsWith_append_self _ _
  have htw : rest.takeWhile isDigitCh = [] := by
    cases hr : rest with
    | nil => rfl
    | cons d t =>
      have hd := hrest d (by rw [hr]; rfl)
      simp [List.takeWhile_cons, hd]
  simp only [matchPrefAt, hsw, if_true]
  rw [show (String.toList "/post-" ++ (String.toList "123" ++ rest)).drop
        (String.toList "/post-").length
      = String.toList "123" ++ rest from List.drop_left _ _]
  show (if (('1' :: '2' :: '3' :: rest).takeWhile isDigitCh).isEmpty then none
    else some (('1' :: '2' :: '3' :: rest).takeWhile isDigitCh)) = some (String.toList "123")
  rw [show ('1' :: '2' :: '3' :: rest).takeWhile isDigitCh = '1' :: '2' :: '3' :: rest.takeWhile isDigitCh
      from by simp [List.takeWhile_cons, isDigitCh]]
  rw [htw]
  rfl

/-- Counterexample to claim C4 as stated: the link
`https://www.nodeseek.com/post-1234` contains the substring
`/post-123`, yet the extracted numeric component is `1234`, not
`123` — the `(\d+)` capture is the maximal digit run. -/
theorem post_id_substring_not_sufficient :
    containsSub (String.toList "https://www.nodeseek.com/post-1234")
        (String.toList "/post-123") = true
    ∧ extractPostId (String.toList "https://www.nodeseek.com/post-1234")
        = some (String.toList "1234")
    ∧ some (String.toList "1234") ≠ some (String.toList "123") := by decide

/-- Claim C4 (corrected): for every link whose leftmost
`/post-<digits>` occurrence captures exactly `123` (no earlier
position matches the first pattern, and the digits are not extended on
the right), the extraction returns `123` — the link is tested against
the ordered pattern list and `/post-(\d+)` is first, so its leftmost
match wins — and the dedup key's numeric component is `123` for every
author and guid.  Mere containment of the substring `/post-123` is not
sufficient (see the counterexample). -/
theorem post_id_first_pattern_extraction (pre rest guid author : List Char)
    (hpre : ∀ i, i < pre.length →
      matchPrefAt (String.toList "/post-")
        ((pre ++ (String.toList "/post-123" ++ rest)).drop i) = none)
    (hrest : ∀ c, rest.head? = some c → isDigitCh c = false) :
    extractPostId (pre ++ (String.toList "/post-123" ++ rest)) = some (String.toList "123")
    ∧ resolveKey (pre ++ (String.toList "/post-123" ++ rest)) guid author
        = String.toList "123" ++ '_' :: authorComponent author := by
  have hsearch : searchPrefDigits (String.toList "/post-")
      (pre ++ (String.toList "/post-123" ++ rest)) = some (String.toList "123") := by
    rw [searchPrefDigits_append _ pre _ hpre]
    have hm := matchPrefAt_post123 rest hrest
    show searchPrefDigits (String.toList "/post-")
        ('/' :: (String.toList "post-123" ++ rest)) = some (String.toList "123")
    rw [searchPrefDigits]
    have hm2 : matchPrefAt (String.toList "/post-")
        ('/' :: (String.toList "post-123" ++ rest)) = some (String.toList "123") := hm
    rw [hm2]
  have hext : extractPostId (pre ++ (String.toList "/post-123" ++ rest))
      = some (String.toList "123") := by
    rw [extractPostId, hsearch]
  refine ⟨hext, ?_⟩
  rw [resolveKey, hext]

/-- Witness for C4: a realistic link whose only `/post-` occurrence
captures `123`; the key's numeric component is `123` with author
`Alice`. -/
theorem post_id_first_pattern_example :
    extractPostId (String.toList "https://www.nodeseek.com"
        ++ (String.toList "/post-123" ++ [])) = some (String.toList "123")
    ∧ resolveKey (String.toList "https://www.nodeseek.com"
        ++ (String.toList "/post-123" ++ [])) [] (String.toList "Alice")
        = String.toList "123" ++ '_' :: authorComponent (String.toList "Alice") :=
  post_id_first_pattern_extraction (String.toList "https://www.nodeseek.com") [] []
    (String.toList "Alice") (by decide) (by decide)

theorem lowerChar_toNat_of_upper {d : Char} (h : 65 ≤ d.toNat ∧ d.toNat ≤ 90) :
    (lowerChar d).toNat = d.toNat + 32 := by
  unfold lowerChar
  rw [dif_pos h]
  rfl

theorem isWordChar_lowerChar {d : Char} (hd : isWordChar d = true) :
    isWordChar (lowerChar d) = true := by
  by_cases h : 65 ≤ d.toNat ∧ d.toNat ≤ 90
  · have ht : (lowerChar d).toNat = d.toNat + 32 := lowerChar_toNat_of_upper h
    simp only [isWordChar, ht, Bool.or_eq_true, Bool.and_eq_true, decide_eq_true_eq]
    omega
  · unfold lowerChar
    rw [dif_neg h]
    exact hd

theorem isUpperCh_lowerChar (d : Char) : isUpperCh (lowerChar d) = false := by
  by_cases h : 65 ≤ d.toNat ∧ d.toNat ≤ 90
  · have ht : (lowerChar d).toNat = d.toNat + 32 := lowerChar_toNat_of_upper h
    simp only [isUpperCh, ht, Bool.and_eq_false_iff, decide_eq_false_iff_not]
    omega
  · unfold lowerChar
    rw [dif_neg h]
    simp only [isUpperCh, Bool.and_eq_false_iff, decide_eq_false_iff_not]
    omega

theorem stripHtmlFuel_no_tag : ∀ (f : Nat) (s : List Char),
    (∀ c ∈ s, ¬ c = '<') → stripHtmlFuel f s = s := by
  intro f
  induction f with
  | zero => intro s _; rfl
  | succ f ih =>
    intro s hs
    cases s with
    | nil => rfl
    | cons c rest =>
      have hc : ¬ c = '<' := hs c (List.mem_cons_self c rest)
      simp only [stripHtmlFuel, hc, if_false]
      rw [ih rest fun d hd => hs d (List.mem_cons_of_mem c hd)]

theorem cleanText_all_space {s : List Char} (h : s.all isPySpace = true) :
    cleanText s = [] := by
  have hlt : ∀ c ∈ s, ¬ c = '<' := by
    intro c hc heq
    have := List.all_eq_true.mp h c hc
    rw [heq] at this
    exact absurd this (by decide)
  have h1 : stripHtml s = s := stripHtmlFuel_no_tag s.length s hlt
  have h2 : pyStrip s = [] := by
    have hdw : s.dropWhile isPySpace = [] :=
      List.dropWhile_eq_nil_iff.mpr fun x hx => List.all_eq_true.mp h x hx
    simp [pyStrip, hdw]
  simp [cleanText, h1, h2, collapseWs]

/-- Counterexample to claim C6 as stated: the author `!!!` is present
but its normalization strips every character; the computed author
component is the empty string, not the literal token `unknown`. -/
theorem author_empty_normalization_not_unknown :
    authorComponent (String.toList "!!!") ≠ String.toList "unknown"
    ∧ authorComponent (String.toList "!!!") = [] := by decide

/-- Claim C6 (corrected): the author component is computed by
stripping whitespace (including full-width and no-break space),
removing every character that is not a word character or CJK
ideograph, and lower-casing — so every produced component is either
the literal `unknown` or consists solely of non-uppercase word/CJK
characters.  A missing author and a whitespace-only author yield the
literal `unknown`; but a present author whose normalization strips
every character yields the empty component, not `unknown`. -/
theorem author_component_normalization :
    authorComponent [] = String.toList "unknown"
    ∧ (∀ raw : List Char, raw.all isPySpace = true →
        authorComponent raw = String.toList "unknown")
    ∧ (∀ (raw : List Char) (c : Char), c ∈ authorComponent raw →
        isWordChar c = true ∧ isUpperCh c = false) := by
  refine ⟨by decide, ?_, ?_⟩
  · intro raw hsp
    by_cases hraw : raw = []
    · subst hraw
      decide
    · have hclean : cleanText raw = [] := cleanText_all_space hsp
      simp [authorComponent, hraw, hclean]
  · intro raw c hc
    unfold authorComponent at hc
    by_cases hcond :
        (if raw = [] then zhUnknown else cleanText raw) ≠ []
        ∧ (if raw = [] then zhUnknown else cleanText raw) ≠ zhUnknown
    · rw [if_pos hcond] at hc
      rcases List.mem_map.mp hc with ⟨d, hd, hdc⟩
      have hdw : isWordChar d = true := (List.mem_filter.mp hd).2
      rw [← hdc]
      exact ⟨isWordChar_lowerChar hdw, isUpperCh_lowerChar d⟩
    · rw [if_neg hcond] at hc
      have hall : ∀ x ∈ String.toList "unknown",
          isWordChar x = true ∧ isUpperCh x = false := by decide
      exact hall c hc

/-- Witness for C6: a mixed-case author with an inner space normalizes
to a lowered word-character string, and the theorem's shape claims
hold of it. -/
theorem author_component_example :
    authorComponent [] = String.toList "unknown"
    ∧ authorComponent (String.toList "   ") = String.toList "unknown"
    ∧ (∀ c ∈ authorComponent (String.toList "Alice W"),
        isWordChar c = true ∧ isUpperCh c = false) := by
  refine ⟨author_component_normalization.1, ?_, ?_⟩
  · exact author_component_normalization.2.1 (String.toList "   ") (by decide)
  · intro c hc
    exact author_component_normalization.2.2 (String.toList "Alice W") c hc
